import Mathlib

/-!
Verification of `src/bugFix/buggy_script.py`.

Shallow embedding: Python number lists become `List ℚ`, Python text becomes
`List Char`, Python integers become `Int`/`Nat`.  Each function of the script
is translated below; the harness `run_tests` is modelled as a trace of output
lines.  The script is a debugging exercise whose seeded defects are checked
against the specification here.
-/

/-- Embeds `calculate_average`: empty list returns the sentinel 0, otherwise
the sum divided by the length (exact rational arithmetic, no rounding). -/
def calculate_average (numbers : List ℚ) : ℚ :=
  if numbers.length = 0 then 0
  else numbers.sum / (numbers.length : ℚ)

/-- The running-best update of `find_max_value`: `if numbers[i] > max_value`
then replace the running maximum. -/
def maxStep (max_value x : ℚ) : ℚ :=
  if x > max_value then x else max_value

/-- Embeds `find_max_value`: `None` on the empty list, otherwise a linear scan
over every index starting from the first element as the running best. -/
def find_max_value (numbers : List ℚ) : Option ℚ :=
  match numbers with
  | [] => none
  | x :: xs => some ((x :: xs).foldl maxStep x)

/-- The normalization performed by `is_palindrome`:
`text.lower().replace(" ", "")`. -/
def normalizeText (text : List Char) : List Char :=
  (text.map Char.toLower).filter (fun c => c != ' ')

/-- Embeds `is_palindrome`: normalize, then compare with the reversal
(`text[::-1]`), returning `True` on equality and `False` otherwise. -/
def is_palindrome (text : List Char) : Bool :=
  let t := normalizeText text
  let reversed_text := t.reverse
  if t = reversed_text then true else false

/-- Embeds `count_vowels`: fold over the lower-cased text counting members of
the vowel set, then return `count + 1` (the script adds 1 to the count). -/
def count_vowels (text : List Char) : Nat :=
  let vowels : List Char := ['a', 'e', 'i', 'o', 'u']
  let count := (text.map Char.toLower).foldl
    (fun count char => if char ∈ vowels then count + 1 else count) 0
  count + 1

/-- The loop of `fibonacci` after `k` iterations of `for i in range(2, n)`:
starting from `fib_sequence = [0, 1]`, each iteration appends
`fib_sequence[i-1] + fib_sequence[i-2]` where `i` is the current length. -/
def fibSeqAux : Nat → List Int
  | 0 => [0, 1]
  | k + 1 =>
    let l := fibSeqAux k
    l ++ [l.getD (l.length - 1) 0 + l.getD (l.length - 2) 0]

/-- Embeds `fibonacci`: 0 for `n ≤ 0`, 1 for `n = 1`, and otherwise the loop
runs `range(2, n)` (that is `n - 2` iterations) and the value at index
`n - 1` of the resulting sequence is returned. -/
def fibonacci (n : Int) : Int :=
  if n ≤ 0 then 0
  else if n = 1 then 1
  else
    let fib_sequence := fibSeqAux (n.toNat - 2)
    fib_sequence.getD (n.toNat - 1) 0

/-- One output line of the harness: a per-case header, a per-case pass or
fail line, or one of the two aggregate summary lines. -/
inductive OutLine where
  | testHeader : Nat → OutLine
  | passed : Nat → OutLine
  | failed : Nat → OutLine
  | summaryAllPassed : OutLine
  | summarySomeFailed : OutLine
deriving DecidableEq

/-- The lines printed for one test case of `run_tests`: the case header and
then a pass line or a fail line depending on the comparison outcome. -/
def caseLines (k : Nat) (ok : Bool) : List OutLine :=
  [OutLine.testHeader k, if ok then OutLine.passed k else OutLine.failed k]

/-- The control flow of `run_tests` with the five comparison outcomes as
parameters: `all_passed` starts `True`, each failing case sets it to `False`,
every case contributes its lines, and the matching summary is printed at the
end.  Returns the output trace and the final `all_passed` flag. -/
def run_tests_with (r1 r2 r3 r4 r5 : Bool) : List OutLine × Bool :=
  let allPassed := true
  let allPassed := if r1 then allPassed else false
  let allPassed := if r2 then allPassed else false
  let allPassed := if r3 then allPassed else false
  let allPassed := if r4 then allPassed else false
  let allPassed := if r5 then allPassed else false
  (caseLines 1 r1 ++ caseLines 2 r2 ++ caseLines 3 r3 ++ caseLines 4 r4 ++
     caseLines 5 r5 ++
     [if allPassed then OutLine.summaryAllPassed else OutLine.summarySomeFailed],
   allPassed)

/-- Embeds `run_tests`: the five fixed sample inputs and expected literals of
the script, compared with exact equality. -/
def run_tests : List OutLine × Bool :=
  run_tests_with
    (decide (calculate_average [1, 2, 3, 4, 5] = 3))
    (decide (find_max_value [1, 5, 3, 9, 2] = some 9))
    (is_palindrome ("radar".toList))
    (decide (count_vowels ("hello world".toList) = 3))
    (decide (fibonacci 6 = 8))

/-! ### Helper lemmas for the `find_max_value` scan -/

/-- The result of the running-maximum fold is either the accumulator or an
element of the scanned list. -/
theorem foldl_maxStep_mem (xs : List ℚ) (a : ℚ) :
    xs.foldl maxStep a = a ∨ xs.foldl maxStep a ∈ xs := by
  induction xs generalizing a with
  | nil => exact Or.inl rfl
  | cons y ys ih =>
    simp only [List.foldl_cons]
    rcases ih (maxStep a y) with h | h
    · rw [h]
      unfold maxStep
      split
      · exact Or.inr (List.mem_cons_self y ys)
      · exact Or.inl rfl
    · exact Or.inr (List.mem_cons_of_mem y h)

/-- The accumulator never exceeds the result of the running-maximum fold. -/
theorem le_foldl_maxStep (xs : List ℚ) (a : ℚ) : a ≤ xs.foldl maxStep a := by
  induction xs generalizing a with
  | nil => exact le_refl a
  | cons y ys ih =>
    simp only [List.foldl_cons]
    refine le_trans ?_ (ih (maxStep a y))
    unfold maxStep
    split
    · exact le_of_lt (by assumption)
    · exact le_refl a

/-- Every scanned element is bounded by the result of the running-maximum
fold. -/
theorem mem_le_foldl_maxStep (xs : List ℚ) :
    ∀ a x : ℚ, x ∈ xs → x ≤ xs.foldl maxStep a := by
  induction xs with
  | nil => intro a x hx; cases hx
  | cons y ys ih =>
    intro a x hx
    simp only [List.foldl_cons]
    rcases List.mem_cons.mp hx with h | h
    · subst h
      refine le_trans ?_ (le_foldl_maxStep ys (maxStep a x))
      unfold maxStep
      split
      · exact le_refl x
      · exact le_of_not_lt (by assumption)
    · exact ih (maxStep a y) x h

/-! ### Claim theorems -/

/-- Claim C1 (code defect, evaluated): the loop of `fibonacci` runs
`range(2, n)` and the function returns `fib_sequence[n-1]`, so it yields the
Fibonacci value at index `n - 1` rather than at index `n`: `fibonacci 6 = 5`
(not 8) and `fibonacci 10 = 34` (not 55), contradicting the script's own
`run_tests` expectations. -/
theorem fibonacci_returns_previous_index :
    fibonacci 6 = 5 ∧ fibonacci 10 = 34 := by
  constructor <;> decide

/-- Claim C2 (code defect, evaluated): `count_vowels` adds 1 to the vowel
count, so on `"hello world"` (which has exactly 3 vowels) it returns 4,
contradicting the exact-count contract and the script's own tests. -/
theorem count_vowels_off_by_one :
    count_vowels ("hello world".toList) = 4 := by decide

/-- Claim C4: `calculate_average` returns the sentinel 0 on the empty
sequence, and on every non-empty sequence returns the exact sum divided by
the length. -/
theorem calculate_average_spec :
    calculate_average [] = 0 ∧
      ∀ S : List ℚ, S ≠ [] → calculate_average S = S.sum / (S.length : ℚ) := by
  constructor
  · rfl
  · intro S hS
    unfold calculate_average
    rw [if_neg (fun h => hS (List.length_eq_zero.mp h))]

/-- Witness for C4 at the concrete input `[1, 2, 3, 4, 5]`. -/
theorem calculate_average_spec_witness :
    calculate_average [1, 2, 3, 4, 5] =
      ([1, 2, 3, 4, 5] : List ℚ).sum / (([1, 2, 3, 4, 5] : List ℚ).length : ℚ) :=
  calculate_average_spec.2 [1, 2, 3, 4, 5] (by decide)

/-- Claim C5: `find_max_value` returns `none` on the empty sequence, and on
every non-empty sequence returns a value that is an element of the sequence
and is at least every element (the true maximum); this covers all-negative
inputs and a maximum at the first or last position. -/
theorem find_max_value_spec :
    find_max_value [] = none ∧
      ∀ S : List ℚ, S ≠ [] →
        ∃ m, find_max_value S = some m ∧ m ∈ S ∧ ∀ x ∈ S, x ≤ m := by
  constructor
  · rfl
  · intro S hS
    match S with
    | [] => exact absurd rfl hS
    | x :: xs =>
      refine ⟨(x :: xs).foldl maxStep x, rfl, ?_, ?_⟩
      · rcases foldl_maxStep_mem (x :: xs) x with h | h
        · rw [h]; exact List.mem_cons_self x xs
        · exact h
      · intro z hz
        exact mem_le_foldl_maxStep (x :: xs) x z hz

/-- Witness for C5 at the concrete all-negative input `[-5, -2, -10, -1]`. -/
theorem find_max_value_spec_witness :
    ∃ m, find_max_value [-5, -2, -10, -1] = some m ∧
      m ∈ ([-5, -2, -10, -1] : List ℚ) ∧
      ∀ x ∈ ([-5, -2, -10, -1] : List ℚ), x ≤ m :=
  find_max_value_spec.2 [-5, -2, -10, -1] (by decide)

/-- Claim C6: `is_palindrome` returns `true` exactly when the normalization
of the text (lower-cased, space characters removed) equals its own reversal,
and the empty text and every single-character text are palindromes. -/
theorem is_palindrome_spec :
    (∀ T : List Char,
        (is_palindrome T = true ↔ normalizeText T = (normalizeText T).reverse)) ∧
      is_palindrome [] = true ∧ ∀ c : Char, is_palindrome [c] = true := by
  refine ⟨?_, rfl, ?_⟩
  · intro T
    simp only [is_palindrome]
    by_cases h : normalizeText T = (normalizeText T).reverse
    · rw [if_pos h]
      exact iff_of_true rfl h
    · rw [if_neg h]
      exact iff_of_false (by simp) h
  · intro c
    simp only [is_palindrome, normalizeText, List.map_cons, List.map_nil]
    by_cases h : Char.toLower c = ' ' <;> simp [h]

/-- Claim C7 (code defect, evaluated): the Fibonacci recurrence fails on the
code at `n = 3`: `fibonacci 3 = 1` while `fibonacci 2 + fibonacci 1 = 2`,
because the function returns the value at index `n - 1`. -/
theorem fibonacci_recurrence_fails :
    fibonacci 3 = 1 ∧ fibonacci 2 + fibonacci 1 = 2 ∧
      fibonacci 3 ≠ fibonacci 2 + fibonacci 1 := by
  refine ⟨by decide, by decide, by decide⟩

/-- Claim C8: `fibonacci 0 = 0`, `fibonacci 1 = 1`, and every `n ≤ 0` maps to
the defined base value 0. -/
theorem fibonacci_base_cases :
    fibonacci 0 = 0 ∧ fibonacci 1 = 1 ∧ ∀ n : Int, n ≤ 0 → fibonacci n = 0 := by
  refine ⟨by decide, by decide, ?_⟩
  intro n hn
  unfold fibonacci
  rw [if_pos hn]

/-- Witness for C8 at the concrete input `n = -7`. -/
theorem fibonacci_base_cases_witness : fibonacci (-7) = 0 :=
  fibonacci_base_cases.2.2 (-7) (by decide)

/-- Claim C9: for every outcome of the five comparisons, the harness
evaluates all five cases in sequence (each contributes a pass line or a fail
line to the trace), never halts early, and ends the trace with the aggregate
summary (all passed when every comparison holds, some failed otherwise). -/
theorem run_tests_evaluates_all_cases :
    ∀ r1 r2 r3 r4 r5 : Bool,
      (OutLine.passed 1 ∈ (run_tests_with r1 r2 r3 r4 r5).1 ∨
        OutLine.failed 1 ∈ (run_tests_with r1 r2 r3 r4 r5).1) ∧
      (OutLine.passed 2 ∈ (run_tests_with r1 r2 r3 r4 r5).1 ∨
        OutLine.failed 2 ∈ (run_tests_with r1 r2 r3 r4 r5).1) ∧
      (OutLine.passed 3 ∈ (run_tests_with r1 r2 r3 r4 r5).1 ∨
        OutLine.failed 3 ∈ (run_tests_with r1 r2 r3 r4 r5).1) ∧
      (OutLine.passed 4 ∈ (run_tests_with r1 r2 r3 r4 r5).1 ∨
        OutLine.failed 4 ∈ (run_tests_with r1 r2 r3 r4 r5).1) ∧
      (OutLine.passed 5 ∈ (run_tests_with r1 r2 r3 r4 r5).1 ∨
        OutLine.failed 5 ∈ (run_tests_with r1 r2 r3 r4 r5).1) ∧
      (run_tests_with r1 r2 r3 r4 r5).1.getLast? =
        some (if r1 && r2 && r3 && r4 && r5 then OutLine.summaryAllPassed
          else OutLine.summarySomeFailed) := by
  decide

/-- Claim C10: on every non-empty sequence, the value `find_max_value`
returns is an element of the input sequence. -/
theorem find_max_value_mem :
    ∀ S : List ℚ, S ≠ [] → ∀ m : ℚ, find_max_value S = some m → m ∈ S := by
  intro S hS m hm
  match S with
  | [] => exact absurd rfl hS
  | x :: xs =>
    have hm2 : (x :: xs).foldl maxStep x = m := Option.some.inj hm
    rcases foldl_maxStep_mem (x :: xs) x with h | h
    · rw [← hm2, h]; exact List.mem_cons_self x xs
    · rw [← hm2]; exact h

/-- Witness for C10 at the concrete input `[1, 5, 3, 9, 2]`. -/
theorem find_max_value_mem_witness : (9 : ℚ) ∈ ([1, 5, 3, 9, 2] : List ℚ) :=
  find_max_value_mem [1, 5, 3, 9, 2] (by decide) 9 (by decide)
